import Mathlib

/-!
Verification of the model-governance registry (`src/core/model_registry.py`).

The registry state and its operations (`register`, `get_production_model`,
`promote_to_production`), the audit trail (`log_action`, `get_logs`), and the
content hasher (`_calculate_sha256`, i.e. SHA-256 over the serialized artifact
bytes) are embedded shallowly.  Nondeterministic environment inputs of the
Python code — `datetime.now()` timestamps and the success or failure of
filesystem writes — are passed as explicit parameters (`now`, `saveOk`,
`ioOk`).  Exceptions are modelled with `Except` (for `register`, which
re-raises) and with boolean results (for `promote_to_production` and
`log_action`, which catch everything).
-/

/-! ## SHA-256 (the `hashlib.sha256(...).hexdigest()` used by the hasher) -/

/-- Truncate to a 32-bit word, as the 32-bit arithmetic of SHA-256 requires. -/
def w32 (n : Nat) : Nat := n % 4294967296

/-- Right-rotation of a 32-bit word by `n` places (for `x < 2^32`). -/
def rotr32 (x n : Nat) : Nat := x / 2 ^ n + x % 2 ^ n * 2 ^ (32 - n)

/-- Big-endian byte expansion of `n` into `count` bytes. -/
def natToBytesBE (n : Nat) : Nat → List Nat
  | 0 => []
  | k + 1 => natToBytesBE (n / 256) k ++ [n % 256]

/-- SHA-256 message padding: append `0x80`, zero bytes up to 56 mod 64, and the
64-bit big-endian bit length. -/
def padMessage (msg : List Nat) : List Nat :=
  let len := msg.length
  let padZeros := (119 - len % 64) % 64
  msg ++ [128] ++ List.replicate padZeros 0 ++ natToBytesBE (len * 8) 8

/-- Split a byte list into 64-byte blocks. -/
def toBlocks (l : List Nat) : List (List Nat) :=
  if h : l = [] then [] else
    l.take 64 :: toBlocks (l.drop 64)
termination_by l.length
decreasing_by
  simp [List.length_drop]
  have hp : 0 < l.length := List.length_pos.mpr h
  omega

/-- Combine each group of four bytes into one big-endian 32-bit word. -/
def bytesToWords : List Nat → List Nat
  | b0 :: b1 :: b2 :: b3 :: rest =>
      (b0 * 16777216 + b1 * 65536 + b2 * 256 + b3) :: bytesToWords rest
  | _ => []

/-- Extend the 16-word block to the 64-word SHA-256 message schedule. -/
def extendW (w : List Nat) : List Nat :=
  if h : w.length ≥ 64 then w else
    let i := w.length
    let x15 := w.getD (i - 15) 0
    let x2 := w.getD (i - 2) 0
    let s0 := (rotr32 x15 7) ^^^ (rotr32 x15 18) ^^^ (x15 / 2 ^ 3)
    let s1 := (rotr32 x2 17) ^^^ (rotr32 x2 19) ^^^ (x2 / 2 ^ 10)
    extendW (w ++ [w32 (w.getD (i - 16) 0 + s0 + w.getD (i - 7) 0 + s1)])
termination_by 64 - w.length
decreasing_by
  simp [List.length_append]
  omega

/-- The eight working registers of the SHA-256 compression function. -/
structure Sha256Regs where
  ra : Nat
  rb : Nat
  rc : Nat
  rd : Nat
  re : Nat
  rf : Nat
  rg : Nat
  rh : Nat
deriving Repr, DecidableEq

/-- One SHA-256 compression round with round constant `kw.1` and schedule word
`kw.2`. -/
def sha256Round (s : Sha256Regs) (kw : Nat × Nat) : Sha256Regs :=
  let e1 := rotr32 s.re 6 ^^^ rotr32 s.re 11 ^^^ rotr32 s.re 25
  let ch := (s.re &&& s.rf) ^^^ ((4294967295 - s.re) &&& s.rg)
  let t1 := w32 (s.rh + e1 + ch + kw.1 + kw.2)
  let a0 := rotr32 s.ra 2 ^^^ rotr32 s.ra 13 ^^^ rotr32 s.ra 22
  let maj := (s.ra &&& s.rb) ^^^ (s.ra &&& s.rc) ^^^ (s.rb &&& s.rc)
  let t2 := w32 (a0 + maj)
  ⟨w32 (t1 + t2), s.ra, s.rb, s.rc, w32 (s.rd + t1), s.re, s.rf, s.rg⟩

/-- The 64 SHA-256 round constants. -/
def sha256K : List Nat :=
  [1116352408, 1899447441, 3049323471, 3921009573, 961987163,
   1508970993, 2453635748, 2870763221, 3624381080, 310598401,
   607225278, 1426881987, 1925078388, 2162078206, 2614888103,
   3248222580, 3835390401, 4022224774, 264347078, 604807628,
   770255983, 1249150122, 1555081692, 1996064986, 2554220882,
   2821834349, 2952996808, 3210313671, 3336571891, 3584528711,
   113926993, 338241895, 666307205, 773529912, 1294757372,
   1396182291, 1695183700, 1986661051, 2177026350, 2456956037,
   2730485921, 2820302411, 3259730800, 3345764771, 3516065817,
   3600352804, 4094571909, 275423344, 430227734, 506948616,
   659060556, 883997877, 958139571, 1322822218, 1537002063,
   1747873779, 1955562222, 2024104815, 2227730452, 2361852424,
   2428436474, 2756734187, 3204031479, 3329325298]

/-- The SHA-256 initial hash state. -/
def sha256H0 : List Nat :=
  [1779033703, 3144134277, 1013904242, 2773480762,
   1359893119, 2600822924, 528734635, 1541459225]

/-- Compress one 64-byte block into the running hash state. -/
def compressBlock (hs : List Nat) (block : List Nat) : List Nat :=
  let w := extendW (bytesToWords block)
  let s0 : Sha256Regs :=
    ⟨hs.getD 0 0, hs.getD 1 0, hs.getD 2 0, hs.getD 3 0,
     hs.getD 4 0, hs.getD 5 0, hs.getD 6 0, hs.getD 7 0⟩
  let s := (sha256K.zip w).foldl sha256Round s0
  [w32 (hs.getD 0 0 + s.ra), w32 (hs.getD 1 0 + s.rb), w32 (hs.getD 2 0 + s.rc),
   w32 (hs.getD 3 0 + s.rd), w32 (hs.getD 4 0 + s.re), w32 (hs.getD 5 0 + s.rf),
   w32 (hs.getD 6 0 + s.rg), w32 (hs.getD 7 0 + s.rh)]

/-- Lower-case hex digit for `n < 16`. -/
def hexChar (n : Nat) : Char := if n < 10 then Char.ofNat (48 + n) else Char.ofNat (87 + n)

/-- Eight-hex-digit rendering of a 32-bit word, most significant digit first. -/
def wordToHex (n : Nat) : String :=
  String.mk ((List.range 8).map (fun i => hexChar (n / 2 ^ ((7 - i) * 4) % 16)))

/-- SHA-256 of a byte list as a lower-case hex digest string, mirroring
`hashlib.sha256(data).hexdigest()`.  Validated against the FIPS 180-4 test
vectors for the empty message and `"abc"`. -/
def sha256hex (msg : List Nat) : String :=
  let final := (toBlocks (padMessage msg)).foldl compressBlock sha256H0
  String.join (final.map wordToHex)

/-! ## Artifacts and `pickle.dumps`

The registry treats the registered model object as an opaque picklable value
(spec §1, §9: "anything that can be serialized to bytes").  `PyObj` is a small
universe of such values; `pickleDumps` is a deterministic byte encoder standing
in for `pickle.dumps`, whose exact byte format is opaque to the registry.  An
object whose pickling raises (an unsupported object graph) is represented by
the constructor `PyObj.unpicklable`, on which `pickleDumps` returns `none`. -/

/-- Little-endian base-256 digits of a natural number. -/
def natBytesLE (n : Nat) : List Nat :=
  if h : n = 0 then [] else n % 256 :: natBytesLE (n / 256)
termination_by n
decreasing_by
  exact Nat.div_lt_self (Nat.pos_of_ne_zero h) (by omega)

/-- Sign-and-magnitude byte encoding of an integer. -/
def intBytes : Int → List Nat
  | Int.ofNat n => 0 :: natBytesLE n
  | Int.negSucc n => 1 :: natBytesLE (n + 1)

/-- An opaque artifact value, as handed to `register`. -/
inductive PyObj where
  | unit : PyObj
  | bool : Bool → PyObj
  | int : Int → PyObj
  | str : String → PyObj
  | unpicklable : PyObj
deriving Repr, DecidableEq

/-- Stand-in for `pickle.dumps`: a deterministic, tag-discriminated byte
encoding; `none` models a `pickle.PicklingError` being raised. -/
def pickleDumps : PyObj → Option (List Nat)
  | PyObj.unit => some [78]
  | PyObj.bool b => some [if b then 136 else 137]
  | PyObj.int i => some (74 :: intBytes i)
  | PyObj.str s => some (85 :: s.data.map (fun ch => ch.toNat % 256))
  | PyObj.unpicklable => none

/-! ## Metadata records and the registry state -/

/-- Stand-in for the `performance_metrics` mapping; its values are opaque to
the registry (never read or computed on), so a simple numeric type suffices. -/
def PerfMetrics : Type := List (String × Int)

instance : DecidableEq PerfMetrics := by
  unfold PerfMetrics
  infer_instance

/-- The `ModelMetadata` dataclass: metadata for one registered model version. -/
structure ModelMetadata where
  name : String
  version : String
  model_type : String
  domain : String
  created_date : String
  created_by : String
  approval_date : Option String := none
  approved_by : Option String := none
  status : String := "development"
  performance_metrics : Option PerfMetrics := none
  validation_report : Option String := none
  data_sha256 : Option String := none
  model_sha256 : Option String := none
deriving DecidableEq

/-- The optional `metadata` dict argument of `register`: the keys the code
reads with `metadata.get(...)`; an absent field models an absent key. -/
structure MetaOverrides where
  domain : Option String := none
  approval_date : Option String := none
  approved_by : Option String := none
  status : Option String := none
  performance_metrics : Option PerfMetrics := none
deriving DecidableEq

/-- The `ModelRegistry` state: the backend tag and the `models` dict mapping a
model name to its insertion-ordered list of metadata records.  The dict is
embedded as an association list with the first binding of a key authoritative
(Python dicts never hold a key twice). -/
structure ModelRegistry where
  backend : String
  models : List (String × List ModelMetadata)
deriving DecidableEq

/-- Dict lookup: `self.models[name]` / `name in self.models`. -/
def lookupModels : List (String × List ModelMetadata) → String → Option (List ModelMetadata)
  | [], _ => none
  | (k, v) :: rest, name => if k = name then some v else lookupModels rest name

/-- Dict update: `self.models[name] = v` (replace the binding if the key is
present, else append a new binding, preserving dict insertion order). -/
def setModels : List (String × List ModelMetadata) → String → List ModelMetadata → List (String × List ModelMetadata)
  | [], name, v => [(name, v)]
  | (k, w) :: rest, name, v =>
      if k = name then (k, v) :: rest else (k, w) :: setModels rest name v

/-- The record list stored under `name`, `self.models.get(name, [])`. -/
def getEntries (r : ModelRegistry) (name : String) : List ModelMetadata :=
  (lookupModels r.models name).getD []

/-- The error raised out of `register` (re-raised at line 116 of the source):
either `pickle.dumps` failed while hashing, or the storage write failed. -/
inductive RegError where
  | serializationError : RegError
  | storageError : RegError
deriving Repr, DecidableEq

/-- One invocation of `register`: its arguments plus the environment effects
(the `datetime.now().isoformat()` timestamp and whether the backend write
succeeds; `_save_model_mlflow` is a no-op that cannot fail, so `saveOk` is
consulted only on the `filesystem` backend). -/
structure RegisterCall where
  model : PyObj
  model_type : String
  created_by : String
  metadata : Option MetaOverrides := none
  now : String
  saveOk : Bool := true
deriving DecidableEq

/-- The generated version tag `f"v{n}.0"`. -/
def versionTag (n : Nat) : String := "v" ++ toString n ++ ".0"

/-- A `register` call that raises no exception: the artifact pickles, and (on
the filesystem backend, the only one whose save can fail) the storage write
succeeds. -/
def CallOk (backend : String) (c : RegisterCall) : Prop :=
  (pickleDumps c.model).isSome = true ∧ (backend = "filesystem" → c.saveOk = true)

instance (backend : String) (c : RegisterCall) : Decidable (CallOk backend c) := by
  unfold CallOk
  infer_instance

/-- `ModelRegistry._calculate_sha256` (source lines 211-215): SHA-256 hex
digest of `pickle.dumps(obj)`; `none` models the pickling exception
propagating. -/
def ModelRegistry._calculate_sha256 (obj : PyObj) : Option String :=
  (pickleDumps obj).map sha256hex

/-- `ModelRegistry.register` (source lines 56-116).  The version counter is
`len(self.models.get(name, [])) + 1`; the hash is computed, the metadata
record built, the artifact persisted, and only then is the record appended to
the in-memory list.  Any exception is logged and re-raised, so a failure
before the append leaves the index unchanged. -/
def ModelRegistry.register (r : ModelRegistry) (name : String) (c : RegisterCall) :
    Except RegError ModelMetadata × ModelRegistry :=
  let current_version := ((lookupModels r.models name).getD []).length + 1
  let version_tag := versionTag current_version
  match ModelRegistry._calculate_sha256 c.model with
  | none => (Except.error RegError.serializationError, r)
  | some model_sha =>
    let model_meta : ModelMetadata :=
      { name := name
        version := version_tag
        model_type := c.model_type
        domain := match c.metadata with
          | some md => md.domain.getD "general"
          | none => "general"
        created_date := c.now
        created_by := c.created_by
        approval_date := match c.metadata with
          | some md => md.approval_date
          | none => none
        approved_by := match c.metadata with
          | some md => md.approved_by
          | none => none
        status := match c.metadata with
          | some md => md.status.getD "development"
          | none => "development"
        performance_metrics := match c.metadata with
          | some md => md.performance_metrics
          | none => none
        model_sha256 := some model_sha }
    if r.backend = "filesystem" ∧ c.saveOk = false then
      (Except.error RegError.storageError, r)
    else
      let entries := (lookupModels r.models name).getD []
      (Except.ok model_meta, { r with models := setModels r.models name (entries ++ [model_meta]) })

/-- A sequence of `register` calls under one name, threading the state and
collecting each call's result. -/
def ModelRegistry.registerSeq (r : ModelRegistry) (name : String) :
    List RegisterCall → List (Except RegError ModelMetadata) × ModelRegistry
  | [] => ([], r)
  | c :: rest =>
    let step := ModelRegistry.register r name c
    let tail := ModelRegistry.registerSeq step.2 name rest
    (step.1 :: tail.1, tail.2)

/-- Lexicographic comparison of character lists by code point, as Python's
`<` on strings compares them. -/
def charsLt : List Char → List Char → Bool
  | [], [] => false
  | [], _ :: _ => true
  | _ :: _, [] => false
  | a :: as, b :: bs =>
      if a.toNat < b.toNat then true
      else if b.toNat < a.toNat then false
      else charsLt as bs

/-- Python's `<` on strings: lexicographic by code point. -/
def pyStrLt (s t : String) : Bool := charsLt s.data t.data

/-- One step of Python's `max(..., key=lambda x: x.created_date)`: the running
maximum is replaced only when strictly beaten, so the first maximal element of
the iterable wins. -/
def pyMaxStep (acc y : ModelMetadata) : ModelMetadata :=
  if pyStrLt acc.created_date y.created_date then y else acc

/-- `ModelRegistry.get_production_model` (source lines 118-136), restricted to
the metadata selection (the artifact load is a plain storage read keyed by the
selected version).  `max(prod_versions, key=lambda x: x.created_date)` returns
the first maximal element, embedded as the equivalent left fold over Python's
string comparison. -/
def ModelRegistry.get_production_model (r : ModelRegistry) (name : String) :
    Option ModelMetadata :=
  match lookupModels r.models name with
  | none => none
  | some versions =>
    let prod_versions := versions.filter (fun v => v.status == "production")
    match prod_versions with
    | [] => none
    | x :: xs =>
      some (xs.foldl pyMaxStep x)

/-- `ModelRegistry.get_model_version` (source lines 138-150), metadata part:
first record with an exact version match. -/
def ModelRegistry.get_model_version (r : ModelRegistry) (name : String) (version : String) :
    Option ModelMetadata :=
  match lookupModels r.models name with
  | none => none
  | some versions =>
    match versions.filter (fun v => v.version == version) with
    | [] => none
    | m :: _ => some m

/-- `ModelRegistry.list_models` (source lines 152-168): all records across all
names, optionally filtered by exact `domain` and `status`. -/
def ModelRegistry.list_models (r : ModelRegistry) (domainFilter : Option String)
    (statusFilter : Option String) : List ModelMetadata :=
  let all_models := r.models.foldl (fun acc p => acc ++ p.2) []
  let f1 := match domainFilter with
    | some d => all_models.filter (fun m => m.domain == d)
    | none => all_models
  match statusFilter with
  | some s => f1.filter (fun m => m.status == s)
  | none => f1

/-- One invocation of `promote_to_production`: its arguments plus the
`datetime.now().isoformat()` timestamp (`approval_notes` is accepted and
unused, as in the source). -/
structure PromoteCall where
  name : String
  version : String
  approved_by : String
  approval_notes : String
  now : String
deriving DecidableEq

/-- `ModelRegistry.promote_to_production` (source lines 170-209): `false` when
the name or version is unknown; otherwise every record of the name currently
`production` is set to `staging`, then the first record carrying the requested
version is set to `production` with approval fields filled in.  The body's
exception handler is unreachable in the model (no statement in it raises). -/
def ModelRegistry.promote_to_production (r : ModelRegistry) (c : PromoteCall) :
    Bool × ModelRegistry :=
  match lookupModels r.models c.name with
  | none => (false, r)
  | some ms =>
    match ms.findIdx? (fun vm => vm.version == c.version) with
    | none => (false, r)
    | some i =>
      let demoted := ms.map (fun vm =>
        if vm.status == "production" then { vm with status := "staging" } else vm)
      let promoted := demoted.mapIdx (fun j vm =>
        if j = i then
          { vm with status := "production",
                    approved_by := some c.approved_by,
                    approval_date := some c.now }
        else vm)
      (true, { r with models := setModels r.models c.name promoted })

/-- A sequence of `promote_to_production` calls, keeping only the final state. -/
def ModelRegistry.applyPromotes (r : ModelRegistry) (calls : List PromoteCall) : ModelRegistry :=
  calls.foldl (fun st c => (ModelRegistry.promote_to_production st c).2) r

/-- The single-production invariant: under every name, at most one stored
record has `status = "production"`. -/
def RegInv (r : ModelRegistry) : Prop :=
  ∀ p ∈ r.models, p.2.countP (fun m => m.status == "production") ≤ 1

instance (r : ModelRegistry) : Decidable (RegInv r) := by
  unfold RegInv
  infer_instance

/-! ## The audit trail -/

/-- One audit log entry (the dict built at source lines 283-290). -/
structure LogEntry where
  timestamp : String
  action : String
  model_id : String
  actor : String
  details : List (String × String)
  status : String
deriving DecidableEq

/-- The `AuditTrail` state: storage mode tag and the in-memory `logs` list. -/
structure AuditTrail where
  storage : String
  logs : List LogEntry
deriving DecidableEq

/-- `AuditTrail.log_action` (source lines 273-302): builds the entry, appends
it to the in-memory list, then (in filesystem mode) attempts the durable
append, whose possible I/O failure is the `ioOk` parameter; the exception
handler converts any failure into a `false` result, after the in-memory append
has already happened. -/
def AuditTrail.log_action (t : AuditTrail) (action model_id actor : String)
    (details : List (String × String)) (status : String) (now : String) (ioOk : Bool) :
    Bool × AuditTrail :=
  let log_entry : LogEntry :=
    { timestamp := now, action := action, model_id := model_id,
      actor := actor, details := details, status := status }
  let t' : AuditTrail := { t with logs := t.logs ++ [log_entry] }
  if t.storage = "filesystem" then
    if ioOk then (true, t') else (false, t')
  else (true, t')

/-- Python truthiness of an optional string argument (`if model_id:`): `none`
and the empty string are falsy. -/
def pyTruthy : Option String → Bool
  | none => false
  | some s => s != ""

/-- `AuditTrail.get_logs` (source lines 312-326): filter the in-memory list by
exact `model_id` and `action` when those arguments are truthy; `days_back` is
accepted but never used, exactly as in the source. -/
def AuditTrail.get_logs (t : AuditTrail) (model_id : Option String)
    (action : Option String) (days_back : Nat) : List LogEntry :=
  let f1 := if pyTruthy model_id
    then t.logs.filter (fun l => l.model_id == model_id.getD "")
    else t.logs
  let f2 := if pyTruthy action
    then f1.filter (fun l => l.action == action.getD "")
    else f1
  f2

/-! ## Plumbing lemmas -/

theorem lookupModels_setModels_self (m : List (String × List ModelMetadata))
    (name : String) (v : List ModelMetadata) :
    lookupModels (setModels m name v) name = some v := by
  induction m with
  | nil => simp [setModels, lookupModels]
  | cons p rest ih =>
    obtain ⟨k, w⟩ := p
    by_cases h : k = name
    · simp [setModels, lookupModels, h]
    · simp [setModels, lookupModels, h, ih]

theorem lookupModels_setModels_ne (m : List (String × List ModelMetadata))
    (name n : String) (v : List ModelMetadata) (hne : n ≠ name) :
    lookupModels (setModels m name v) n = lookupModels m n := by
  induction m with
  | nil =>
    simp [setModels, lookupModels]
    intro h
    exact absurd h.symm hne
  | cons p rest ih =>
    obtain ⟨k, w⟩ := p
    by_cases h : k = name
    · subst h
      have hkn : ¬ k = n := fun hh => hne (hh.symm)
      simp [setModels, lookupModels, hkn]
    · by_cases h2 : k = n
      · simp [setModels, lookupModels, h, h2, hne]
      · simp [setModels, lookupModels, h, h2, ih]

theorem mem_setModels (m : List (String × List ModelMetadata))
    (name : String) (v : List ModelMetadata) (p : String × List ModelMetadata)
    (hp : p ∈ setModels m name v) : p = (name, v) ∨ p ∈ m := by
  induction m with
  | nil =>
    simp [setModels] at hp
    exact Or.inl hp
  | cons q rest ih =>
    obtain ⟨k, w⟩ := q
    by_cases h : k = name
    · subst h
      simp [setModels] at hp
      rcases hp with hp | hp
      · exact Or.inl hp
      · exact Or.inr (List.mem_cons_of_mem _ hp)
    · simp [setModels, h] at hp
      rcases hp with hp | hp
      · exact Or.inr (List.mem_cons.mpr (Or.inl hp))
      · rcases ih hp with hh | hh
        · exact Or.inl hh
        · exact Or.inr (List.mem_cons_of_mem _ hh)

theorem findIdx?_some_found {α : Type} (p : α → Bool) :
    ∀ (l : List α) (j : Nat), List.findIdx? p l = some j →
      ∃ m, l[j]? = some m ∧ p m = true := by
  intro l
  induction l with
  | nil =>
    intro j h
    simp [List.findIdx?_nil] at h
  | cons x xs ih =>
    intro j h
    rw [List.findIdx?_cons] at h
    by_cases hx : p x = true
    · simp [hx] at h
      subst h
      exact ⟨x, by simp, hx⟩
    · simp [hx] at h
      obtain ⟨a, ha, haj⟩ := h
      obtain ⟨m, hget, hm⟩ := ih a ha
      refine ⟨m, ?_, hm⟩
      have hidx : j = a + 1 := by omega
      rw [hidx, List.getElem?_cons_succ]
      exact hget

theorem mapIdx_ite_eq_set {α : Type} (l : List α) (i : Nat) (g : α → α)
    (h : i < l.length) :
    (l.mapIdx fun j a => if j = i then g a else a) = l.set i (g (l.get ⟨i, h⟩)) := by
  apply List.ext_getElem?
  intro n
  rw [List.getElem?_mapIdx]
  by_cases hn : n = i
  · subst hn
    rw [List.getElem?_set_self (by omega), List.getElem?_eq_getElem h]
    simp
  · rw [List.getElem?_set_ne (fun hh => hn hh.symm)]
    cases hg : l[n]? with
    | none => simp
    | some a => simp [hn]

theorem charsLt_trans : ∀ (a b c : List Char),
    charsLt a b = true → charsLt b c = true → charsLt a c = true := by
  intro a
  induction a with
  | nil =>
    intro b c hab hbc
    cases b with
    | nil => simp [charsLt] at hab
    | cons y bs =>
      cases c with
      | nil => simp [charsLt] at hbc
      | cons z cs => simp [charsLt]
  | cons x as ih =>
    intro b c hab hbc
    cases b with
    | nil => simp [charsLt] at hab
    | cons y bs =>
      cases c with
      | nil => simp [charsLt] at hbc
      | cons z cs =>
        simp only [charsLt] at hab hbc ⊢
        rcases Nat.lt_trichotomy x.toNat y.toNat with h1 | h1 | h1
        · rcases Nat.lt_trichotomy y.toNat z.toNat with h2 | h2 | h2
          · simp [show x.toNat < z.toNat by omega]
          · simp [show x.toNat < z.toNat by omega]
          · rw [if_neg (by omega), if_pos h2] at hbc
            exact absurd hbc (by simp)
        · rcases Nat.lt_trichotomy y.toNat z.toNat with h2 | h2 | h2
          · simp [show x.toNat < z.toNat by omega]
          · rw [if_neg (by omega), if_neg (by omega)] at hab
            rw [if_neg (by omega), if_neg (by omega)] at hbc
            rw [if_neg (by omega), if_neg (by omega)]
            exact ih bs cs hab hbc
          · rw [if_neg (by omega), if_pos h2] at hbc
            exact absurd hbc (by simp)
        · rw [if_neg (by omega), if_pos h1] at hab
          exact absurd hab (by simp)

theorem charsLt_false_lt : ∀ (a b c : List Char),
    charsLt a b = false → charsLt a c = true → charsLt b c = true := by
  intro a
  induction a with
  | nil =>
    intro b c hab hac
    cases b with
    | nil =>
      cases c with
      | nil => simp [charsLt] at hac
      | cons z cs => simp [charsLt]
    | cons y bs => simp [charsLt] at hab
  | cons x as ih =>
    intro b c hab hac
    cases c with
    | nil => simp [charsLt] at hac
    | cons z cs =>
      cases b with
      | nil => simp [charsLt]
      | cons y bs =>
        simp only [charsLt] at hab hac ⊢
        rcases Nat.lt_trichotomy x.toNat y.toNat with h1 | h1 | h1
        · rw [if_pos h1] at hab
          exact absurd hab (by simp)
        · rcases Nat.lt_trichotomy x.toNat z.toNat with h2 | h2 | h2
          · simp [show y.toNat < z.toNat by omega]
          · rw [if_neg (by omega), if_neg (by omega)] at hab
            rw [if_neg (by omega), if_neg (by omega)] at hac
            rw [if_neg (by omega), if_neg (by omega)]
            exact ih bs cs hab hac
          · rw [if_neg (by omega), if_pos h2] at hac
            exact absurd hac (by simp)
        · rcases Nat.lt_trichotomy x.toNat z.toNat with h2 | h2 | h2
          · simp [show y.toNat < z.toNat by omega]
          · simp [show y.toNat < z.toNat by omega]
          · rw [if_neg (by omega), if_pos h2] at hac
            exact absurd hac (by simp)

theorem pyStrLt_trans {a b c : String} (hab : pyStrLt a b = true)
    (hbc : pyStrLt b c = true) : pyStrLt a c = true :=
  charsLt_trans a.data b.data c.data hab hbc

theorem pyStrLt_false_lt {a b c : String} (hab : pyStrLt a b = false)
    (hac : pyStrLt a c = true) : pyStrLt b c = true :=
  charsLt_false_lt a.data b.data c.data hab hac

theorem foldl_pyMax_firstmax (xs : List ModelMetadata) :
    ∀ (x : ModelMetadata),
      ∃ l1 l2,
        x :: xs = l1 ++ (xs.foldl pyMaxStep x) :: l2 ∧
        (∀ z ∈ l1, pyStrLt z.created_date (xs.foldl pyMaxStep x).created_date = true) ∧
        (∀ z ∈ l2, pyStrLt (xs.foldl pyMaxStep x).created_date z.created_date = false) := by
  induction xs with
  | nil =>
    intro x
    exact ⟨[], [], rfl, by simp, by simp⟩
  | cons y ys ih =>
    intro x
    rw [List.foldl_cons]
    by_cases hxy : pyStrLt x.created_date y.created_date = true
    · rw [show pyMaxStep x y = y from by simp [pyMaxStep, hxy]]
      obtain ⟨l1, l2, hdec, hl1, hl2⟩ := ih y
      cases l1 with
      | nil =>
        simp only [List.nil_append] at hdec
        have hinj : y = List.foldl pyMaxStep y ys ∧ ys = l2 := by simpa using hdec
        refine ⟨[x], l2, ?_, ?_, hl2⟩
        · simp only [List.cons_append, List.nil_append]
          rw [← hinj.1, ← hinj.2]
        · intro z hz
          simp at hz
          subst hz
          rw [← hinj.1]
          exact hxy
      | cons a l1t =>
        have hay : a = y := by
          have := congrArg (fun l => l[0]?) hdec
          simpa using this.symm
        subst hay
        have htail : ys = l1t ++ (List.foldl pyMaxStep a ys) :: l2 := by
          have := congrArg List.tail hdec
          simpa using this
        have haRes : pyStrLt a.created_date (List.foldl pyMaxStep a ys).created_date = true :=
          hl1 a (by simp)
        refine ⟨x :: a :: l1t, l2, ?_, ?_, hl2⟩
        · simp only [List.cons_append]
          rw [← htail]
        · intro z hz
          rcases List.mem_cons.mp hz with hz | hz
          · subst hz
            exact pyStrLt_trans hxy haRes
          · rcases List.mem_cons.mp hz with hz | hz
            · subst hz
              exact haRes
            · exact hl1 z (List.mem_cons_of_mem _ hz)
    · have hxy' : pyStrLt x.created_date y.created_date = false := by
        cases h : pyStrLt x.created_date y.created_date
        · rfl
        · exact absurd h hxy
      rw [show pyMaxStep x y = x from by simp [pyMaxStep, hxy']]
      obtain ⟨l1, l2, hdec, hl1, hl2⟩ := ih x
      cases l1 with
      | nil =>
        simp only [List.nil_append] at hdec
        have hinj : x = List.foldl pyMaxStep x ys ∧ ys = l2 := by simpa using hdec
        refine ⟨[], y :: ys, ?_, by simp, ?_⟩
        · simp only [List.nil_append]
          rw [← hinj.1]
        · intro z hz
          rw [← hinj.1]
          rcases List.mem_cons.mp hz with hz | hz
          · subst hz
            exact hxy'
          · have hz2 : z ∈ l2 := hinj.2 ▸ hz
            have hf := hl2 z hz2
            rwa [← hinj.1] at hf
      | cons a l1t =>
        have hax : a = x := by
          have := congrArg (fun l => l[0]?) hdec
          simpa using this.symm
        subst hax
        have htail : ys = l1t ++ (List.foldl pyMaxStep a ys) :: l2 := by
          have := congrArg List.tail hdec
          simpa using this
        have haRes : pyStrLt a.created_date (List.foldl pyMaxStep a ys).created_date = true :=
          hl1 a (by simp)
        refine ⟨a :: y :: l1t, l2, ?_, ?_, hl2⟩
        · simp only [List.cons_append]
          rw [← htail]
        · intro z hz
          rcases List.mem_cons.mp hz with hz | hz
          · subst hz
            exact haRes
          · rcases List.mem_cons.mp hz with hz | hz
            · subst hz
              exact pyStrLt_false_lt hxy' haRes
            · exact hl1 z (List.mem_cons_of_mem _ hz)

theorem register_ok (r : ModelRegistry) (name : String) (c : RegisterCall)
    (hok : CallOk r.backend c) :
    ∃ m : ModelMetadata,
      ModelRegistry.register r name c =
        (Except.ok m, { r with models := setModels r.models name (getEntries r name ++ [m]) }) ∧
      m.version = versionTag ((getEntries r name).length + 1) ∧
      m.created_date = c.now ∧
      m.model_sha256 = ModelRegistry._calculate_sha256 c.model := by
  obtain ⟨hpickle, hsave⟩ := hok
  cases hbytes : pickleDumps c.model with
  | none =>
    rw [hbytes] at hpickle
    simp at hpickle
  | some bytes =>
    have hcond : ¬ (r.backend = "filesystem" ∧ c.saveOk = false) := by
      rintro ⟨h1, h2⟩
      rw [hsave h1] at h2
      simp at h2
    unfold ModelRegistry.register ModelRegistry._calculate_sha256
    rw [hbytes]
    simp only [Option.map_some', if_neg hcond, getEntries]
    exact ⟨_, rfl, rfl, rfl, rfl⟩

theorem registerSeq_spec (name : String) :
    ∀ (calls : List RegisterCall) (r : ModelRegistry),
      (∀ c ∈ calls, CallOk r.backend c) →
      ∃ ms : List ModelMetadata,
        (ModelRegistry.registerSeq r name calls).1 = ms.map Except.ok ∧
        ms.map (fun m => m.version) =
          (List.range calls.length).map (fun i => versionTag ((getEntries r name).length + i + 1)) ∧
        getEntries (ModelRegistry.registerSeq r name calls).2 name = getEntries r name ++ ms ∧
        (ModelRegistry.registerSeq r name calls).2.backend = r.backend := by
  intro calls
  induction calls with
  | nil =>
    intro r _
    exact ⟨[], rfl, by simp, by simp [ModelRegistry.registerSeq], rfl⟩
  | cons c rest ih =>
    intro r hok
    obtain ⟨m, hreg, hver, _, _⟩ := register_ok r name c (hok c (List.mem_cons_self _ _))
    have hb1 : ({ r with models := setModels r.models name (getEntries r name ++ [m]) } : ModelRegistry).backend = r.backend := rfl
    have hent1 : getEntries { r with models := setModels r.models name (getEntries r name ++ [m]) } name = getEntries r name ++ [m] := by
      simp [getEntries, lookupModels_setModels_self]
    obtain ⟨ms, hres, hvers, hents, hback⟩ :=
      ih { r with models := setModels r.models name (getEntries r name ++ [m]) }
        (fun c' hc' => by
          rw [hb1]
          exact hok c' (List.mem_cons_of_mem _ hc'))
    refine ⟨m :: ms, ?_, ?_, ?_, ?_⟩
    · simp [ModelRegistry.registerSeq, hreg, hres]
    · simp only [List.map_cons, List.length_cons, List.range_succ_eq_map, List.map_map]
      refine congrArg₂ _ hver ?_
      rw [hvers, hent1]
      apply List.map_congr_left
      intro i _
      simp only [Function.comp_apply, List.length_append, List.length_cons, List.length_nil]
      exact congrArg versionTag (by omega)
    · simp only [ModelRegistry.registerSeq, hreg]
      rw [hents, hent1]
      simp
    · simp only [ModelRegistry.registerSeq, hreg]
      rw [hback]

theorem promote_cases (r : ModelRegistry) (c : PromoteCall) :
    ModelRegistry.promote_to_production r c = (false, r) ∨
    ∃ ms i, lookupModels r.models c.name = some ms ∧
      ms.findIdx? (fun vm => vm.version == c.version) = some i ∧
      i < ms.length ∧
      ModelRegistry.promote_to_production r c =
        (true,
          { r with
              models := setModels r.models c.name
                          ((ms.map (fun vm =>
                              if vm.status == "production" then { vm with status := "staging" }
                              else vm)).mapIdx
                            (fun j vm =>
                              if j = i then
                                { vm with status := "production",
                                          approved_by := some c.approved_by,
                                          approval_date := some c.now }
                              else vm)) }) := by
  rcases hms : lookupModels r.models c.name with _ | ms
  · left
    simp only [ModelRegistry.promote_to_production, hms]
  · rcases hidx : ms.findIdx? (fun vm => vm.version == c.version) with _ | i
    · left
      simp only [ModelRegistry.promote_to_production, hms, hidx]
    · obtain ⟨m, hget, _⟩ := findIdx?_some_found _ ms i hidx
      obtain ⟨hlt, _⟩ := List.getElem?_eq_some_iff.mp hget
      right
      refine ⟨ms, i, rfl, hidx, hlt, ?_⟩
      simp only [ModelRegistry.promote_to_production, hms, hidx]

theorem countP_demoted_zero (ms : List ModelMetadata) :
    ((ms.map (fun vm =>
        if vm.status == "production" then { vm with status := "staging" } else vm)).countP
      (fun m => m.status == "production")) = 0 := by
  rw [List.countP_eq_zero]
  intro a ha
  obtain ⟨b, hb, rfl⟩ := List.mem_map.mp ha
  cases hbs : b.status == "production"
  · simp [hbs]
  · simp [hbs]

theorem countP_promoted_le_one (ms : List ModelMetadata) (i : Nat) (hi : i < ms.length)
    (ab ad : String) :
    (((ms.map (fun vm =>
        if vm.status == "production" then { vm with status := "staging" } else vm)).mapIdx
      (fun j vm =>
        if j = i then
          { vm with status := "production",
                    approved_by := some ab,
                    approval_date := some ad }
        else vm)).countP (fun m => m.status == "production")) ≤ 1 := by
  have hlen : i < (ms.map (fun vm =>
      if vm.status == "production" then { vm with status := "staging" } else vm)).length := by
    simpa using hi
  rw [mapIdx_ite_eq_set _ i _ hlen]
  rw [List.countP_set _ _ _ _ hlen]
  rw [countP_demoted_zero]
  split
  · split
    · omega
    · omega
  · split
    · omega
    · omega

theorem promote_preserves_inv (r : ModelRegistry) (c : PromoteCall) (hinv : RegInv r) :
    RegInv (ModelRegistry.promote_to_production r c).2 := by
  rcases promote_cases r c with h | ⟨ms, i, _, _, hlt, h⟩
  · rw [h]
    exact hinv
  · rw [h]
    intro p hp
    simp only at hp
    rcases mem_setModels _ _ _ p hp with hpv | hpv
    · rw [hpv]
      exact countP_promoted_le_one ms i hlt c.approved_by c.now
    · exact hinv p hpv

/-! ## Claim theorems -/

/-- C4: for every registry state, `promote_to_production` with a name not in
the registry, or with a version no record of that name carries, returns false
without raising and leaves the whole registry state (every record of every
name, every field) unchanged. -/
theorem promote_unknown_target_noop (r : ModelRegistry) (c : PromoteCall)
    (h : lookupModels r.models c.name = none ∨
         ∀ m ∈ (lookupModels r.models c.name).getD [], m.version ≠ c.version) :
    ModelRegistry.promote_to_production r c = (false, r) := by
  cases hms : lookupModels r.models c.name with
  | none => simp only [ModelRegistry.promote_to_production, hms]
  | some ms =>
    rcases h with h | h
    · rw [hms] at h
      exact absurd h (by simp)
    · rw [hms] at h
      simp only [Option.getD_some] at h
      have hidx : ms.findIdx? (fun vm => vm.version == c.version) = none := by
        rw [List.findIdx?_eq_none_iff]
        intro x hx
        exact beq_eq_false_iff_ne.mpr (h x hx)
      simp only [ModelRegistry.promote_to_production, hms, hidx]

/-- C4 witness: promoting an unknown name on a concrete one-model registry
fails and changes nothing. -/
theorem promote_unknown_target_noop_witness :
    ModelRegistry.promote_to_production
      { backend := "filesystem",
        models := [("credit_scoring",
          [{ name := "credit_scoring", version := "v1.0", model_type := "classifier",
             domain := "general", created_date := "t1", created_by := "alice" }])] }
      { name := "nosuch", version := "v1.0", approved_by := "bob",
        approval_notes := "x", now := "t2" } =
    (false,
      { backend := "filesystem",
        models := [("credit_scoring",
          [{ name := "credit_scoring", version := "v1.0", model_type := "classifier",
             domain := "general", created_date := "t1", created_by := "alice" }])] }) :=
  promote_unknown_target_noop _ _ (by decide)

/-- C5: if persistence fails during `register` — the artifact cannot be
pickled for hashing, or the storage write fails — `register` raises (returns
an error, not a record) and the registry state, in particular the in-memory
sequence for the name, is left unchanged. -/
theorem register_persistence_failure (r : ModelRegistry) (name : String) (c : RegisterCall)
    (h : pickleDumps c.model = none ∨ (r.backend = "filesystem" ∧ c.saveOk = false)) :
    ∃ e, ModelRegistry.register r name c = (Except.error e, r) := by
  cases hp : pickleDumps c.model with
  | none =>
    refine ⟨RegError.serializationError, ?_⟩
    simp only [ModelRegistry.register, ModelRegistry._calculate_sha256, hp, Option.map_none']
  | some bytes =>
    rcases h with h | h
    · rw [hp] at h
      exact absurd h (by simp)
    · refine ⟨RegError.storageError, ?_⟩
      simp only [ModelRegistry.register, ModelRegistry._calculate_sha256, hp, Option.map_some']
      rw [if_pos h]

/-- C5 witness: registering an unpicklable artifact fails and leaves the
empty registry empty; so does a failing filesystem write. -/
theorem register_persistence_failure_witness :
    (∃ e, ModelRegistry.register { backend := "filesystem", models := [] } "m"
        { model := PyObj.unpicklable, model_type := "classifier", created_by := "alice",
          metadata := none, now := "t1", saveOk := true } =
      (Except.error e, { backend := "filesystem", models := [] })) ∧
    (∃ e, ModelRegistry.register { backend := "filesystem", models := [] } "m"
        { model := PyObj.int 1, model_type := "classifier", created_by := "alice",
          metadata := none, now := "t1", saveOk := false } =
      (Except.error e, { backend := "filesystem", models := [] })) :=
  ⟨register_persistence_failure _ _ _ (Or.inl (by decide)),
   register_persistence_failure _ _ _ (Or.inr (by decide))⟩

/-- C6: `log_action` never raises: it is a total function into a boolean
result, returning `false` exactly when the durable filesystem append fails
(`ioOk = false` on the filesystem storage) and `true` on success — for every
input and every outcome of the internal I/O. -/
theorem log_action_never_raises (t : AuditTrail) (action model_id actor : String)
    (details : List (String × String)) (status now : String) (ioOk : Bool) :
    (AuditTrail.log_action t action model_id actor details status now ioOk).1 =
      (if t.storage = "filesystem" then ioOk else true) := by
  unfold AuditTrail.log_action
  by_cases h : t.storage = "filesystem"
  · cases ioOk <;> simp [h]
  · simp [h]

/-- C9: when `log_action` returns false because the durable write failed, the
entry was already appended to the in-memory log and is not rolled back, so a
subsequent `get_logs` call still returns it. -/
theorem log_action_inmemory_kept_on_failure (t : AuditTrail)
    (action model_id actor : String) (details : List (String × String))
    (status now : String) (hfs : t.storage = "filesystem") :
    (AuditTrail.log_action t action model_id actor details status now false).1 = false ∧
    (AuditTrail.log_action t action model_id actor details status now false).2.logs =
      t.logs ++ [⟨now, action, model_id, actor, details, status⟩] ∧
    (⟨now, action, model_id, actor, details, status⟩ : LogEntry) ∈
      AuditTrail.get_logs
        (AuditTrail.log_action t action model_id actor details status now false).2
        (some model_id) (some action) 30 := by
  have hform : AuditTrail.log_action t action model_id actor details status now false =
      (false, { t with logs := t.logs ++ [⟨now, action, model_id, actor, details, status⟩] }) := by
    unfold AuditTrail.log_action
    simp [hfs]
  refine ⟨by rw [hform], by rw [hform], ?_⟩
  rw [hform]
  unfold AuditTrail.get_logs
  have hmem : (⟨now, action, model_id, actor, details, status⟩ : LogEntry) ∈
      t.logs ++ [⟨now, action, model_id, actor, details, status⟩] := by
    simp
  by_cases h1 : pyTruthy (some model_id) = true
  · by_cases h2 : pyTruthy (some action) = true
    · simp only [h1, h2, if_pos]
      exact List.mem_filter.mpr ⟨List.mem_filter.mpr ⟨hmem, by simp⟩, by simp⟩
    · simp only [h1, if_pos, Bool.not_eq_true] at *
      simp only [h1, h2, Bool.false_eq_true, if_false, if_pos]
      exact List.mem_filter.mpr ⟨hmem, by simp⟩
  · simp only [Bool.not_eq_true] at h1
    by_cases h2 : pyTruthy (some action) = true
    · simp only [h1, h2, Bool.false_eq_true, if_false, if_pos]
      exact List.mem_filter.mpr ⟨hmem, by simp⟩
    · simp only [Bool.not_eq_true] at h2
      simp only [h1, h2, Bool.false_eq_true, if_false]
      exact hmem

/-- C9 witness: a concrete failed durable append on a filesystem audit trail
still leaves the entry queryable in memory. -/
theorem log_action_inmemory_kept_on_failure_witness :
    (AuditTrail.log_action { storage := "filesystem", logs := [] }
        "register" "m:v1.0" "alice" [] "SUCCESS" "t1" false).1 = false ∧
    (AuditTrail.log_action { storage := "filesystem", logs := [] }
        "register" "m:v1.0" "alice" [] "SUCCESS" "t1" false).2.logs =
      [] ++ [⟨"t1", "register", "m:v1.0", "alice", [], "SUCCESS"⟩] ∧
    (⟨"t1", "register", "m:v1.0", "alice", [], "SUCCESS"⟩ : LogEntry) ∈
      AuditTrail.get_logs
        (AuditTrail.log_action { storage := "filesystem", logs := [] }
          "register" "m:v1.0" "alice" [] "SUCCESS" "t1" false).2
        (some "m:v1.0") (some "register") 30 :=
  log_action_inmemory_kept_on_failure _ _ _ _ _ _ _ rfl

/-- C8: `register` copies a supplied `status` override into the new record
without validation.  Concretely: on an empty registry, one register call with
`status := "production"` leaves one production record under `"m"`, and a
second such call appends a second production record without demoting the
first — so after the two calls two records of the one name carry
`status = "production"` simultaneously. -/
theorem register_status_override_two_production :
    ((getEntries
        (ModelRegistry.register { backend := "filesystem", models := [] } "m"
          { model := PyObj.int 1, model_type := "classifier", created_by := "alice",
            metadata := some { status := some "production" }, now := "t1",
            saveOk := true }).2
        "m").countP (fun m => m.status == "production")) = 1 ∧
    ((getEntries
        (ModelRegistry.register
          (ModelRegistry.register { backend := "filesystem", models := [] } "m"
            { model := PyObj.int 1, model_type := "classifier", created_by := "alice",
              metadata := some { status := some "production" }, now := "t1",
              saveOk := true }).2
          "m"
          { model := PyObj.int 2, model_type := "classifier", created_by := "alice",
            metadata := some { status := some "production" }, now := "t2",
            saveOk := true }).2
        "m").countP (fun m => m.status == "production")) = 2 := by
  constructor
  · decide
  · decide

/-- C7: the model hash is a pure function of the serialized artifact bytes:
artifacts with equal `pickle.dumps` output get identical hex digests from
`_calculate_sha256`, and registering the same artifact twice in a row (as two
different versions of one name) records identical `model_sha256` both times. -/
theorem calculate_sha256_pure :
    (∀ a b : PyObj, pickleDumps a = pickleDumps b →
       ModelRegistry._calculate_sha256 a = ModelRegistry._calculate_sha256 b) ∧
    (∀ (r : ModelRegistry) (name : String) (c1 c2 : RegisterCall),
       pickleDumps c1.model = pickleDumps c2.model →
       (pickleDumps c1.model).isSome = true →
       (r.backend = "filesystem" → c1.saveOk = true) →
       (r.backend = "filesystem" → c2.saveOk = true) →
       ∃ m1 m2,
         (ModelRegistry.register r name c1).1 = Except.ok m1 ∧
         (ModelRegistry.register (ModelRegistry.register r name c1).2 name c2).1 =
           Except.ok m2 ∧
         m1.model_sha256 = m2.model_sha256) := by
  constructor
  · intro a b h
    unfold ModelRegistry._calculate_sha256
    rw [h]
  · intro r name c1 c2 heq hsome hs1 hs2
    obtain ⟨m1, hreg1, _, _, hsha1⟩ := register_ok r name c1 ⟨hsome, hs1⟩
    have hsnd : (ModelRegistry.register r name c1).2 =
        { r with models := setModels r.models name (getEntries r name ++ [m1]) } := by
      rw [hreg1]
    have hb : (ModelRegistry.register r name c1).2.backend = r.backend := by
      rw [hsnd]
    obtain ⟨m2, hreg2, _, _, hsha2⟩ :=
      register_ok (ModelRegistry.register r name c1).2 name c2
        ⟨by rw [← heq]; exact hsome, by rw [hb]; exact hs2⟩
    refine ⟨m1, m2, by rw [hreg1], by rw [hreg2], ?_⟩
    rw [hsha1, hsha2]
    unfold ModelRegistry._calculate_sha256
    rw [heq]

/-- C7 witness: two structurally equal artifacts have equal digests, and
registering the literal same artifact twice on a concrete registry records
equal `model_sha256` fields. -/
theorem calculate_sha256_pure_witness :
    (ModelRegistry._calculate_sha256 (PyObj.int 7) =
      ModelRegistry._calculate_sha256 (PyObj.int 7)) ∧
    (∃ m1 m2,
      (ModelRegistry.register { backend := "filesystem", models := [] } "m"
        { model := PyObj.str "weights", model_type := "classifier", created_by := "alice",
          metadata := none, now := "t1", saveOk := true }).1 = Except.ok m1 ∧
      (ModelRegistry.register
        (ModelRegistry.register { backend := "filesystem", models := [] } "m"
          { model := PyObj.str "weights", model_type := "classifier", created_by := "alice",
            metadata := none, now := "t1", saveOk := true }).2 "m"
        { model := PyObj.str "weights", model_type := "regressor", created_by := "bob",
          metadata := none, now := "t2", saveOk := true }).1 = Except.ok m2 ∧
      m1.model_sha256 = m2.model_sha256) :=
  ⟨calculate_sha256_pure.1 (PyObj.int 7) (PyObj.int 7) rfl,
   calculate_sha256_pure.2 { backend := "filesystem", models := [] } "m"
     { model := PyObj.str "weights", model_type := "classifier", created_by := "alice",
       metadata := none, now := "t1", saveOk := true }
     { model := PyObj.str "weights", model_type := "regressor", created_by := "bob",
       metadata := none, now := "t2", saveOk := true }
     rfl (by decide) (fun _ => rfl) (fun _ => rfl)⟩

/-- C1: after any sequence of `promote_to_production` calls on a registry
satisfying the single-production invariant, at most one record per name has
`status = "production"`; and when a version is promoted, any other record of
the same name that was `production` ends up exactly `"staging"` (all its other
fields unchanged — in particular never `"development"` or `"deprecated"`). -/
theorem promote_single_production :
    (∀ (r : ModelRegistry) (calls : List PromoteCall),
       RegInv r → RegInv (ModelRegistry.applyPromotes r calls)) ∧
    (∀ (r : ModelRegistry) (c : PromoteCall) (j : Nat) (A : ModelMetadata),
       (ModelRegistry.promote_to_production r c).1 = true →
       (getEntries r c.name)[j]? = some A →
       A.status = "production" →
       A.version ≠ c.version →
       (getEntries (ModelRegistry.promote_to_production r c).2 c.name)[j]? =
         some { A with status := "staging" }) := by
  constructor
  · intro r calls
    revert r
    induction calls with
    | nil =>
      intro r hinv
      exact hinv
    | cons c rest ih =>
      intro r hinv
      have hstep := promote_preserves_inv r c hinv
      have hfold : ModelRegistry.applyPromotes r (c :: rest) =
          ModelRegistry.applyPromotes (ModelRegistry.promote_to_production r c).2 rest := by
        simp [ModelRegistry.applyPromotes, List.foldl_cons]
      rw [hfold]
      exact ih _ hstep
  · intro r c j A hsucc hget hprod hver
    rcases promote_cases r c with h | ⟨ms, i, hms, hidx, hlt, h⟩
    · rw [h] at hsucc
      exact absurd hsucc (by simp)
    · have hent : getEntries r c.name = ms := by
        simp [getEntries, hms]
      rw [hent] at hget
      obtain ⟨T, hTget, hTver⟩ := findIdx?_some_found _ ms i hidx
      have hji : j ≠ i := by
        intro hcontra
        subst hcontra
        rw [hget] at hTget
        have hAT : A = T := by
          injection hTget
        rw [← hAT] at hTver
        exact hver (beq_iff_eq.mp hTver)
      have hent2 : getEntries (ModelRegistry.promote_to_production r c).2 c.name =
          ((ms.map (fun vm =>
              if vm.status == "production" then { vm with status := "staging" }
              else vm)).mapIdx
            (fun k vm =>
              if k = i then
                { vm with status := "production",
                          approved_by := some c.approved_by,
                          approval_date := some c.now }
              else vm)) := by
        rw [h]
        simp [getEntries, lookupModels_setModels_self]
      rw [hent2, List.getElem?_mapIdx, List.getElem?_map, hget]
      simp only [Option.map_some']
      rw [if_neg hji]
      have hstat : (A.status == "production") = true := beq_iff_eq.mpr hprod
      rw [if_pos hstat]

/-- C1 witness: on a concrete two-record registry satisfying the invariant,
promoting v2.0 preserves the invariant and turns the previously-production
v1.0 record into exactly its staging copy. -/
theorem promote_single_production_witness :
    RegInv
      (ModelRegistry.applyPromotes
        { backend := "filesystem",
          models := [("m",
            [{ name := "m", version := "v1.0", model_type := "classifier",
               domain := "general", created_date := "t1", created_by := "alice",
               status := "production" },
             { name := "m", version := "v2.0", model_type := "classifier",
               domain := "general", created_date := "t2", created_by := "alice" }])] }
        [{ name := "m", version := "v2.0", approved_by := "bob",
           approval_notes := "upgrade", now := "t3" }]) ∧
    (getEntries
      (ModelRegistry.promote_to_production
        { backend := "filesystem",
          models := [("m",
            [{ name := "m", version := "v1.0", model_type := "classifier",
               domain := "general", created_date := "t1", created_by := "alice",
               status := "production" },
             { name := "m", version := "v2.0", model_type := "classifier",
               domain := "general", created_date := "t2", created_by := "alice" }])] }
        { name := "m", version := "v2.0", approved_by := "bob",
          approval_notes := "upgrade", now := "t3" }).2 "m")[0]? =
      some { name := "m", version := "v1.0", model_type := "classifier",
             domain := "general", created_date := "t1", created_by := "alice",
             status := "staging" } :=
  ⟨promote_single_production.1 _ _ (by decide),
   promote_single_production.2 _ _ 0
     { name := "m", version := "v1.0", model_type := "classifier",
       domain := "general", created_date := "t1", created_by := "alice",
       status := "production" }
     (by decide) (by decide) rfl (by decide)⟩

/-- C10: a successful `promote_to_production` modifies only the records stored
under the promoted name (records of every other name, and the backend tag, are
unchanged); within that name the list length is preserved, every non-target
record changes at most its `status` field (`production` to `staging`, all
other records and fields untouched), and the target record — the first record
carrying the requested version — changes exactly its `status`, `approved_by`
and `approval_date` fields. -/
theorem promote_frame (r : ModelRegistry) (c : PromoteCall)
    (hsucc : (ModelRegistry.promote_to_production r c).1 = true) :
    (ModelRegistry.promote_to_production r c).2.backend = r.backend ∧
    (∀ n, n ≠ c.name →
      lookupModels (ModelRegistry.promote_to_production r c).2.models n =
        lookupModels r.models n) ∧
    ∃ i, (getEntries r c.name).findIdx? (fun vm => vm.version == c.version) = some i ∧
      (getEntries (ModelRegistry.promote_to_production r c).2 c.name).length =
        (getEntries r c.name).length ∧
      (∀ j A, j ≠ i → (getEntries r c.name)[j]? = some A →
        (getEntries (ModelRegistry.promote_to_production r c).2 c.name)[j]? =
          some (if A.status == "production" then { A with status := "staging" } else A)) ∧
      (∀ A, (getEntries r c.name)[i]? = some A →
        (getEntries (ModelRegistry.promote_to_production r c).2 c.name)[i]? =
          some { A with status := "production",
                        approved_by := some c.approved_by,
                        approval_date := some c.now }) := by
  rcases promote_cases r c with h | ⟨ms, i, hms, hidx, hlt, h⟩
  · rw [h] at hsucc
    exact absurd hsucc (by simp)
  · have hent : getEntries r c.name = ms := by
      simp [getEntries, hms]
    have hent2 : getEntries (ModelRegistry.promote_to_production r c).2 c.name =
        ((ms.map (fun vm =>
            if vm.status == "production" then { vm with status := "staging" }
            else vm)).mapIdx
          (fun k vm =>
            if k = i then
              { vm with status := "production",
                        approved_by := some c.approved_by,
                        approval_date := some c.now }
            else vm)) := by
      rw [h]
      simp [getEntries, lookupModels_setModels_self]
    refine ⟨by rw [h], ?_, i, ?_, ?_, ?_, ?_⟩
    · intro n hn
      rw [h]
      exact lookupModels_setModels_ne r.models c.name n _ hn
    · rw [hent]
      exact hidx
    · rw [hent, hent2]
      simp
    · intro j A hji hget
      rw [hent] at hget
      rw [hent2, List.getElem?_mapIdx, List.getElem?_map, hget]
      simp only [Option.map_some']
      rw [if_neg hji]
    · intro A hget
      rw [hent] at hget
      rw [hent2, List.getElem?_mapIdx, List.getElem?_map, hget]
      cases hA : A.status == "production"
      · have hA2 : A.status ≠ "production" := beq_eq_false_iff_ne.mp hA
        simp [hA2]
      · have hA2 : A.status = "production" := beq_iff_eq.mp hA
        simp [hA2]

/-- C10 witness: a concrete successful promotion on a two-name registry —
the other name's records are untouched, the non-target record only moves
`production → staging`, and the target gains exactly its approval fields. -/
theorem promote_frame_witness :
    ((ModelRegistry.promote_to_production
        { backend := "filesystem",
          models := [("m",
            [{ name := "m", version := "v1.0", model_type := "classifier",
               domain := "general", created_date := "t1", created_by := "alice",
               status := "production" },
             { name := "m", version := "v2.0", model_type := "classifier",
               domain := "general", created_date := "t2", created_by := "alice" }]),
            ("other",
            [{ name := "other", version := "v1.0", model_type := "regressor",
               domain := "credit", created_date := "t0", created_by := "carol" }])] }
        { name := "m", version := "v2.0", approved_by := "bob",
          approval_notes := "upgrade", now := "t3" }).2.backend = "filesystem") ∧
    (∀ n, n ≠ "m" →
      lookupModels (ModelRegistry.promote_to_production
        { backend := "filesystem",
          models := [("m",
            [{ name := "m", version := "v1.0", model_type := "classifier",
               domain := "general", created_date := "t1", created_by := "alice",
               status := "production" },
             { name := "m", version := "v2.0", model_type := "classifier",
               domain := "general", created_date := "t2", created_by := "alice" }]),
            ("other",
            [{ name := "other", version := "v1.0", model_type := "regressor",
               domain := "credit", created_date := "t0", created_by := "carol" }])] }
        { name := "m", version := "v2.0", approved_by := "bob",
          approval_notes := "upgrade", now := "t3" }).2.models n =
      lookupModels
        [("m",
          [{ name := "m", version := "v1.0", model_type := "classifier",
             domain := "general", created_date := "t1", created_by := "alice",
             status := "production" },
           { name := "m", version := "v2.0", model_type := "classifier",
             domain := "general", created_date := "t2", created_by := "alice" }]),
          ("other",
          [{ name := "other", version := "v1.0", model_type := "regressor",
             domain := "credit", created_date := "t0", created_by := "carol" }])] n) ∧
    (∃ i, (getEntries
        { backend := "filesystem",
          models := [("m",
            [{ name := "m", version := "v1.0", model_type := "classifier",
               domain := "general", created_date := "t1", created_by := "alice",
               status := "production" },
             { name := "m", version := "v2.0", model_type := "classifier",
               domain := "general", created_date := "t2", created_by := "alice" }]),
            ("other",
            [{ name := "other", version := "v1.0", model_type := "regressor",
               domain := "credit", created_date := "t0", created_by := "carol" }])] }
        "m").findIdx? (fun vm => vm.version == "v2.0") = some i) := by
  have hfull := promote_frame
    { backend := "filesystem",
      models := [("m",
        [{ name := "m", version := "v1.0", model_type := "classifier",
           domain := "general", created_date := "t1", created_by := "alice",
           status := "production" },
         { name := "m", version := "v2.0", model_type := "classifier",
           domain := "general", created_date := "t2", created_by := "alice" }]),
        ("other",
        [{ name := "other", version := "v1.0", model_type := "regressor",
           domain := "credit", created_date := "t0", created_by := "carol" }])] }
    { name := "m", version := "v2.0", approved_by := "bob",
      approval_notes := "upgrade", now := "t3" }
    (by decide)
  obtain ⟨hb, hother, i, hi, _⟩ := hfull
  exact ⟨hb, hother, i, hi⟩

/-- C2: for every sequence of N successful `register` calls under one name,
starting from a registry with no records for that name, the returned records
carry version tags exactly `v1.0, v2.0, …, vN.0` in call order, and the
in-memory sequence for that name afterwards lists exactly those records in
that order. -/
theorem register_version_monotonic (r : ModelRegistry) (name : String)
    (calls : List RegisterCall)
    (hempty : getEntries r name = [])
    (hok : ∀ c ∈ calls, CallOk r.backend c) :
    ∃ ms : List ModelMetadata,
      (ModelRegistry.registerSeq r name calls).1 = ms.map Except.ok ∧
      ms.map (fun m => m.version) =
        (List.range calls.length).map (fun i => versionTag (i + 1)) ∧
      getEntries (ModelRegistry.registerSeq r name calls).2 name = ms := by
  obtain ⟨ms, h1, h2, h3, _⟩ := registerSeq_spec name calls r hok
  refine ⟨ms, h1, ?_, ?_⟩
  · rw [h2, hempty]
    simp
  · rw [h3, hempty]
    simp

/-- C2 witness: three successful registrations on an initially empty name
produce `v1.0, v2.0, v3.0` in order, and the stored sequence is the returned
records in order. -/
theorem register_version_monotonic_witness :
    ∃ ms : List ModelMetadata,
      (ModelRegistry.registerSeq { backend := "filesystem", models := [] } "credit_scoring"
        [{ model := PyObj.int 1, model_type := "classifier", created_by := "alice",
           metadata := none, now := "t1", saveOk := true },
         { model := PyObj.int 2, model_type := "classifier", created_by := "alice",
           metadata := none, now := "t2", saveOk := true },
         { model := PyObj.str "w3", model_type := "classifier", created_by := "bob",
           metadata := none, now := "t3", saveOk := true }]).1 = ms.map Except.ok ∧
      ms.map (fun m => m.version) =
        (List.range 3).map (fun i => versionTag (i + 1)) ∧
      getEntries
        (ModelRegistry.registerSeq { backend := "filesystem", models := [] } "credit_scoring"
          [{ model := PyObj.int 1, model_type := "classifier", created_by := "alice",
             metadata := none, now := "t1", saveOk := true },
           { model := PyObj.int 2, model_type := "classifier", created_by := "alice",
             metadata := none, now := "t2", saveOk := true },
           { model := PyObj.str "w3", model_type := "classifier", created_by := "bob",
             metadata := none, now := "t3", saveOk := true }]).2 "credit_scoring" = ms :=
  register_version_monotonic _ _ _ rfl (by decide)

/-- C3 counterexample: with two production records of one name carrying the
same `created_date`, `get_production_model` returns the FIRST-registered one
(`v1.0`), not the last-registered (`v2.0`) as the claim's tie-breaking rule
("last-registered record winning") demands — Python's `max` keeps the first
maximal element. -/
theorem get_production_model_tie_counterexample :
    (ModelRegistry.get_production_model
      { backend := "filesystem",
        models := [("m",
          [{ name := "m", version := "v1.0", model_type := "classifier",
             domain := "general", created_date := "2024-01-01T00:00:00",
             created_by := "alice", status := "production" },
           { name := "m", version := "v2.0", model_type := "classifier",
             domain := "general", created_date := "2024-01-01T00:00:00",
             created_by := "alice", status := "production" }])] }
      "m").map (fun m => m.version) = some "v1.0" ∧
    some ("v1.0" : String) ≠ some ("v2.0" : String) := by
  constructor
  · decide
  · decide

/-- C3 amended: `get_production_model(name)` selects, among the records for
`name` with `status = "production"`, the one with the latest `created_date`,
breaking ties by insertion order with the FIRST such record winning (every
earlier record is strictly older, no later record is strictly newer); it
returns an absent result (`none`, not an error) exactly when `name` is unknown
or no record of `name` is in production. -/
theorem get_production_model_spec (r : ModelRegistry) (name : String) :
    (ModelRegistry.get_production_model r name = none ↔
      (getEntries r name).filter (fun v => v.status == "production") = []) ∧
    (∀ m, ModelRegistry.get_production_model r name = some m →
      ∃ l1 l2,
        (getEntries r name).filter (fun v => v.status == "production") = l1 ++ m :: l2 ∧
        (∀ z ∈ l1, pyStrLt z.created_date m.created_date = true) ∧
        (∀ z ∈ l2, pyStrLt m.created_date z.created_date = false)) := by
  cases hms : lookupModels r.models name with
  | none =>
    have hent : getEntries r name = [] := by
      simp [getEntries, hms]
    have hget : ModelRegistry.get_production_model r name = none := by
      simp [ModelRegistry.get_production_model, hms]
    rw [hget, hent]
    constructor
    · simp
    · intro m hm
      exact absurd hm (by simp)
  | some versions =>
    have hent : getEntries r name = versions := by
      simp [getEntries, hms]
    rw [hent]
    cases hfil : versions.filter (fun v => v.status == "production") with
    | nil =>
      have hget : ModelRegistry.get_production_model r name = none := by
        simp [ModelRegistry.get_production_model, hms, hfil]
      rw [hget]
      constructor
      · simp
      · intro m hm
        exact absurd hm (by simp)
    | cons x xs =>
      have hget : ModelRegistry.get_production_model r name =
          some (xs.foldl pyMaxStep x) := by
        simp [ModelRegistry.get_production_model, hms, hfil]
      rw [hget]
      constructor
      · constructor
        · intro h
          exact absurd h (by simp)
        · intro h
          exact absurd h (by simp)
      · intro m hm
        have hm2 : xs.foldl pyMaxStep x = m := Option.some.inj hm
        subst hm2
        obtain ⟨l1, l2, hdec, hl1, hl2⟩ := foldl_pyMax_firstmax xs x
        exact ⟨l1, l2, hdec, hl1, hl2⟩

/-- C3 amended witness: on a concrete registry with two production records of
distinct dates, the selected record decomposes the production list with all
earlier records strictly older and no later record newer. -/
theorem get_production_model_spec_witness :
    ∃ l1 l2,
      (getEntries
        { backend := "filesystem",
          models := [("m",
            [{ name := "m", version := "v1.0", model_type := "classifier",
               domain := "general", created_date := "2024-01-01T00:00:00",
               created_by := "alice", status := "production" },
             { name := "m", version := "v2.0", model_type := "classifier",
               domain := "general", created_date := "2024-06-01T00:00:00",
               created_by := "alice", status := "production" }])] }
        "m").filter (fun v => v.status == "production") =
        l1 ++ { name := "m", version := "v2.0", model_type := "classifier",
                domain := "general", created_date := "2024-06-01T00:00:00",
                created_by := "alice", status := "production" } :: l2 ∧
      (∀ z ∈ l1,
        pyStrLt z.created_date "2024-06-01T00:00:00" = true) ∧
      (∀ z ∈ l2,
        pyStrLt "2024-06-01T00:00:00" z.created_date = false) :=
  (get_production_model_spec
    { backend := "filesystem",
      models := [("m",
        [{ name := "m", version := "v1.0", model_type := "classifier",
           domain := "general", created_date := "2024-01-01T00:00:00",
           created_by := "alice", status := "production" },
         { name := "m", version := "v2.0", model_type := "classifier",
           domain := "general", created_date := "2024-06-01T00:00:00",
           created_by := "alice", status := "production" }])] }
    "m").2
    { name := "m", version := "v2.0", model_type := "classifier",
      domain := "general", created_date := "2024-06-01T00:00:00",
      created_by := "alice", status := "production" }
    (by decide)
